import Mathlib

/-!
Verification of the bill-split allocation engine of the repository
(`src/app/utils/split_calculator.py` and the older variant
`src/split_calculator.py`).  Monetary amounts are modelled as exact
rationals (`ℚ`); Python's builtin `round` (banker's rounding, ties to
even) is modelled by `pyround`, and `decimal.Decimal` quantization with
`ROUND_HALF_UP` (ties away from zero) by `halfUpZ`/`q2up`.  Fallible
Python code (raising `ValueError` / failing an `assert`) is modelled
with `Except String`.
-/

namespace SplitCalc

/-- Python's builtin `round` to an integer: round half to even. -/
def pyround (q : ℚ) : ℤ :=
  let f := ⌊q⌋
  let r := q - (f : ℚ)
  if r < 1/2 then f
  else if 1/2 < r then f + 1
  else if f % 2 = 0 then f else f + 1

/-- Python's `round(x, 2)`: round to two decimal places, ties to even. -/
def roundTo2 (q : ℚ) : ℚ := (pyround (q * 100) : ℚ) / 100

/-- `decimal.Decimal` rounding to an integer with `ROUND_HALF_UP`:
round half away from zero. -/
def halfUpZ (q : ℚ) : ℤ :=
  if 0 ≤ q then ⌊q + 1/2⌋ else -⌊-q + 1/2⌋

/-- Quantization to two decimal places with `ROUND_HALF_UP`, as in
`val.quantize(Decimal(\x7b0.01\x7d), rounding=ROUND_HALF_UP)`. -/
def q2up (q : ℚ) : ℚ := (halfUpZ (q * 100) : ℚ) / 100

/-- `SplitCalculator.splitwise_split` from
`src/app/utils/split_calculator.py`: validate the arguments, convert the
total to cents with Python `round`, distribute `total_cents // n` cents
to everyone and one extra cent to the first `total_cents % n`
participants, and convert each share back via `round(cents / 100, 2)`.
Python's `//` and `%` on integers are floor division and floor modulus,
i.e. `Int.fdiv` and `Int.fmod`. -/
def splitwise_split (total_amount : ℚ) (num_participants : ℤ) :
    Except String (List ℚ) :=
  if num_participants ≤ 0 then
    .error "Number of participants must be positive"
  else if total_amount < 0 then
    .error "Total amount cannot be negative"
  else
    let total_cents : ℤ := pyround (total_amount * 100)
    let base : ℤ := Int.fdiv total_cents num_participants
    let rem : ℤ := Int.fmod total_cents num_participants
    .ok ((List.range num_participants.toNat).map (fun (i : ℕ) =>
      if (i : ℤ) < rem then roundTo2 ((base + 1 : ℤ) / (100 : ℚ))
      else roundTo2 ((base : ℤ) / (100 : ℚ))))

/-- The pure share list produced by a successful `splitwise_split` call
with `m ≥ 1` participants. -/
def splitList (t : ℚ) (m : ℕ) : List ℚ :=
  (List.range m).map (fun (i : ℕ) =>
    if (i : ℤ) < Int.fmod (pyround (t * 100)) (m : ℤ)
    then ((Int.fdiv (pyround (t * 100)) (m : ℤ) + 1 : ℤ) : ℚ) / 100
    else ((Int.fdiv (pyround (t * 100)) (m : ℤ) : ℤ) : ℚ) / 100)

/-- A bill line item: `{id, price, is_tax_or_tip}`. -/
structure Item where
  id : String
  price : ℚ
  isTaxOrTip : Bool
deriving DecidableEq, Repr

/-- The `votes` dictionary: item id → list of user ids who ate it. -/
def VoteMap := List (String × List String)

/-- `votes.get(item_id, [])`. -/
def getVotes (votes : VoteMap) (k : String) : List String :=
  match votes.find? (fun p => p.1 = k) with
  | some p => p.2
  | none => []

/-- Step 1 of both aggregators: the set of all users appearing in any
vote list (`all_eaters`), as a duplicate-free list with a fixed
enumeration (Python iterates a `set`, whose order we canonicalize). -/
def allEaters (votes : VoteMap) : List String :=
  (votes.flatMap Prod.snd).dedup

/-- Sum of all entries of `pairs` whose key is `uid`: the amount the
per-user `defaultdict` accumulates for `uid`. -/
def lookupSum (pairs : List (String × ℚ)) (uid : String) : ℚ :=
  ((pairs.filter (fun p => p.1 = uid)).map Prod.snd).sum

/-- Sum of all values of an association list. -/
def sumValues (pairs : List (String × ℚ)) : ℚ :=
  (pairs.map Prod.snd).sum

/-- Step 2 of `calculate_bill_split`
(`src/app/utils/split_calculator.py`): a non-tax item with a non-empty
voter list is split with `splitwise_split` among its voters, pairing
voter `i` with share `i`; tax/tip items and voterless items contribute
nothing here. -/
def itemAlloc (votes : VoteMap) (it : Item) :
    Except String (List (String × ℚ)) :=
  if it.isTaxOrTip then .ok []
  else
    let eaters := getVotes votes it.id
    if eaters.isEmpty then .ok []
    else do
      let amounts ← splitwise_split it.price (eaters.length : ℤ)
      .ok (eaters.zip amounts)

/-- `tax_tip_total`: the pooled price of all `is_tax_or_tip` items. -/
def taxPool (items : List Item) : ℚ :=
  ((items.filter (fun it => it.isTaxOrTip)).map Item.price).sum

/-- Step 3 of `calculate_bill_split`: if the tax/tip pool is positive it
is split with `splitwise_split` among the whole eater set. -/
def taxAlloc (items : List Item) (votes : VoteMap) :
    Except String (List (String × ℚ)) :=
  if 0 < taxPool items then do
    let amounts ← splitwise_split (taxPool items) ((allEaters votes).length : ℤ)
    .ok ((allEaters votes).zip amounts)
  else .ok []

/-- Propagate the first `ValueError` raised inside the item loop. -/
def collectE : List (Except String (List (String × ℚ))) →
    Except String (List (List (String × ℚ)))
  | [] => .ok []
  | .error e :: _ => .error e
  | .ok a :: rest =>
    match collectE rest with
    | .error e => .error e
    | .ok as_ => .ok (a :: as_)

/-- The pairs a successful `itemAlloc` returns (voters of a non-tax item
zipped with their `splitwise_split` shares). -/
def itemPairs (votes : VoteMap) (it : Item) : List (String × ℚ) :=
  if it.isTaxOrTip then []
  else
    let eaters := getVotes votes it.id
    if eaters.isEmpty then []
    else eaters.zip (splitList it.price eaters.length)

/-- The pairs a successful `taxAlloc` returns. -/
def taxPairs (items : List Item) (votes : VoteMap) : List (String × ℚ) :=
  if 0 < taxPool items then
    (allEaters votes).zip (splitList (taxPool items) (allEaters votes).length)
  else []

/-- All (user, share) pairs the aggregator accumulates on the success
path: item allocations in item order, then the tax/tip allocation. -/
def billPairs (items : List Item) (votes : VoteMap) : List (String × ℚ) :=
  (items.map (itemPairs votes)).flatten ++ taxPairs items votes

/-- Steps 4–5 of the primary aggregator: one totals entry per eater, a
`0` entry appended for an outside payer, then the payer's entry
overwritten with the negated sum of everyone else's totals. -/
def buildTotals (pairs : List (String × ℚ)) (eatersL : List String)
    (payerId : String) : List (String × ℚ) :=
  let totals0 := eatersL.map (fun uid => (uid, lookupSum pairs uid))
  let totals1 :=
    if payerId ∈ eatersL then totals0 else totals0 ++ [(payerId, 0)]
  let othersSum := sumValues (totals1.filter (fun p => p.1 ≠ payerId))
  totals1.map (fun p => if p.1 = payerId then (p.1, -othersSum) else p)

/-- The final split result `{payer_id, totals}`, with `totals` an
association list in the order the Python dict acquires its keys. -/
structure BillResult where
  payerId : String
  totals : List (String × ℚ)
deriving DecidableEq, Repr

/-- `SplitCalculator.calculate_bill_split` from
`src/app/utils/split_calculator.py` (the primary, vote-respecting
aggregator).  Empty eater set returns `{payer: 0}`; otherwise per-item
allocations and the tax/tip allocation are accumulated per user, every
eater gets a totals entry, the payer is added with `0` if absent and
then overwritten with the negated sum of everyone else's totals, and
the zero-sum `assert` (tolerance `0.01`) runs before returning. -/
def calculate_bill_split (items : List Item) (votes : VoteMap)
    (payerId : String) : Except String BillResult :=
  let eatersL := allEaters votes
  if eatersL.isEmpty then .ok ⟨payerId, [(payerId, 0)]⟩
  else
    match collectE (items.map (itemAlloc votes)) with
    | .error e => .error e
    | .ok allocs =>
      match taxAlloc items votes with
      | .error e => .error e
      | .ok tA =>
        let totals := buildTotals (allocs.flatten ++ tA) eatersL payerId
        if |sumValues totals| < 1/100 then .ok ⟨payerId, totals⟩
        else .error "Totals do not sum to zero"

/-- Spec-side restatement (§4.2 step 2): a non-tax item's price is split
by the primitive among that item's voters, in voter enumeration order;
`uid` accumulates the shares at its positions.  Used to compare the
aggregator against the spec's wording. -/
def specItemShare (votes : VoteMap) (it : Item) (uid : String) : ℚ :=
  if it.isTaxOrTip then 0
  else lookupSum ((getVotes votes it.id).zip
    (splitList it.price (getVotes votes it.id).length)) uid

/-- Spec-side restatement (§4.2 step 3): the pooled tax/tip amount, when
positive, is split by the primitive among the whole eater set under a
fixed enumeration; `uid` accumulates the shares at its positions. -/
def specTaxShare (items : List Item) (votes : VoteMap) (uid : String) : ℚ :=
  if 0 < taxPool items then
    lookupSum ((allEaters votes).zip
      (splitList (taxPool items) (allEaters votes).length)) uid
  else 0

/-- Per-item share in the older variant `src/split_calculator.py`: a
non-tax item with voters contributes `price / len(eaters)` to each of
its own voters (`share = price / len(eaters)`, added once per
occurrence of `uid` in the voter list). -/
def oldItemShare (votes : VoteMap) (it : Item) (uid : String) : ℚ :=
  if it.isTaxOrTip then 0
  else
    let eaters := getVotes votes it.id
    if eaters.isEmpty then 0
    else (eaters.count uid : ℚ) * (it.price / (eaters.length : ℚ))

/-- Amended-claim restatement for the older variant: a vote-respecting
per-item share — a user who voted for a non-tax item gets
`price / len(voters)` per recorded vote, anyone else gets `0`. -/
def oldSpecShare (votes : VoteMap) (it : Item) (uid : String) : ℚ :=
  if it.isTaxOrTip = false ∧ uid ∈ getVotes votes it.id then
    ((getVotes votes it.id).count uid : ℚ)
      * (it.price / ((getVotes votes it.id).length : ℚ))
  else 0

/-- Steps 2–4 of the older variant: a user's pre-rounding total is the
sum of that user's per-item shares plus `tax_tip_total / len(all_eaters)`. -/
def oldUserTotal (items : List Item) (votes : VoteMap) (uid : String) : ℚ :=
  (items.map (fun it => oldItemShare votes it uid)).sum
    + taxPool items / ((allEaters votes).length : ℚ)

/-- Step 5 of the older variant: every non-payer eater's total,
quantized half-up, keyed in eater-set order (`rounded_totals`). -/
def oldRounded (items : List Item) (votes : VoteMap) (payerId : String) :
    List (String × ℚ) :=
  ((allEaters votes).filter (fun u => u ≠ payerId)).map
    (fun u => (u, q2up (oldUserTotal items votes u)))

/-- Steps 5–6 of the older variant: the rounded non-payer totals with
the payer's entry appended, the payer owing the quantized negation of
the others' sum. -/
def oldTotals (items : List Item) (votes : VoteMap) (payerId : String) :
    List (String × ℚ) :=
  oldRounded items votes payerId
    ++ [(payerId, q2up (-(sumValues (oldRounded items votes payerId))))]

/-- `SplitCalculator.calculate_bill_split` from `src/split_calculator.py`
(the older aggregator): exact decimal division per item among the
item's voters, tax/tip divided by the eater-set size and added to every
eater, non-payer totals quantized half-up, the payer set to the
quantized negation of the others' sum, and the zero-sum `assert` before
returning. -/
def calculate_bill_split_old (items : List Item) (votes : VoteMap)
    (payerId : String) : Except String BillResult :=
  if (allEaters votes).isEmpty then .ok ⟨payerId, [(payerId, 0)]⟩
  else
    let totals := oldTotals items votes payerId
    if |sumValues totals| < 1/100 then .ok ⟨payerId, totals⟩
    else .error "Totals do not sum to zero"

/-! ### Basic facts about the rounding functions -/

lemma pyround_intCast (k : ℤ) : pyround (k : ℚ) = k := by
  simp [pyround]

lemma roundTo2_int_div (k : ℤ) : roundTo2 ((k : ℚ) / 100) = (k : ℚ) / 100 := by
  have h : ((k : ℚ) / 100) * 100 = (k : ℚ) := by
    field_simp
  rw [roundTo2, h, pyround_intCast]

lemma halfUpZ_intCast (k : ℤ) : halfUpZ (k : ℚ) = k := by
  unfold halfUpZ
  by_cases h : (0:ℚ) ≤ (k:ℚ)
  · rw [if_pos h, Int.floor_int_add]
    norm_num
  · rw [if_neg h]
    have h2 : (-(k:ℚ) + 1/2) = ((-k : ℤ) : ℚ) + (1/2 : ℚ) := by push_cast; ring
    rw [h2, Int.floor_int_add]
    norm_num

lemma q2up_int_div (k : ℤ) : q2up ((k : ℚ) / 100) = (k : ℚ) / 100 := by
  have h : ((k : ℚ) / 100) * 100 = (k : ℚ) := by field_simp
  rw [q2up, h, halfUpZ_intCast]

/-! ### The shape of a successful `splitwise_split` -/

lemma splitwise_split_eq (t : ℚ) (n : ℤ) (hn : 0 < n) (ht : 0 ≤ t) :
    splitwise_split t n = .ok ((List.range n.toNat).map (fun (i : ℕ) =>
      if (i : ℤ) < Int.fmod (pyround (t * 100)) n
      then ((Int.fdiv (pyround (t * 100)) n + 1 : ℤ) : ℚ) / 100
      else ((Int.fdiv (pyround (t * 100)) n : ℤ) : ℚ) / 100)) := by
  unfold splitwise_split
  rw [if_neg (by omega), if_neg (not_lt.mpr ht)]
  refine congrArg Except.ok (List.map_congr_left fun i _ => ?_)
  by_cases h : (i : ℤ) < Int.fmod (pyround (t * 100)) n
  · simp only [if_pos h, roundTo2_int_div]
  · simp only [if_neg h, roundTo2_int_div]

lemma sum_split_shares (m : ℕ) (b r : ℤ) (h0 : 0 ≤ r) :
    ((List.range m).map (fun (i : ℕ) =>
        if (i : ℤ) < r then ((b + 1 : ℤ) : ℚ) / 100
        else ((b : ℤ) : ℚ) / 100)).sum
      = ((m : ℚ) * (b : ℚ) + ((min r (m : ℤ) : ℤ) : ℚ)) / 100 := by
  induction m with
  | zero =>
    have h1 : min r ((0 : ℕ) : ℤ) = 0 := by omega
    rw [List.range_zero, List.map_nil, List.sum_nil, h1]
    norm_num
  | succ m ih =>
    rw [List.range_succ, List.map_append, List.sum_append, ih]
    simp only [List.map_cons, List.map_nil, List.sum_cons, List.sum_nil,
      add_zero]
    by_cases h : (m : ℤ) < r
    · have h1 : min r ((m : ℕ) : ℤ) = ((m : ℕ) : ℤ) := by omega
      have h2 : min r ((m + 1 : ℕ) : ℤ) = ((m + 1 : ℕ) : ℤ) := by omega
      rw [if_pos h, h1, h2]
      push_cast
      ring
    · have h1 : min r ((m : ℕ) : ℤ) = r := by omega
      have h2 : min r ((m + 1 : ℕ) : ℤ) = r := by omega
      rw [if_neg h, h1, h2]
      push_cast
      ring

lemma splitwise_split_sum (t : ℚ) (n : ℤ) (hn : 0 < n) (ht : 0 ≤ t) :
    ∃ l, splitwise_split t n = .ok l ∧ l.sum = roundTo2 t := by
  refine ⟨_, splitwise_split_eq t n hn ht, ?_⟩
  set c := pyround (t * 100) with hc
  have hr0 : 0 ≤ Int.fmod c n := Int.fmod_nonneg' c hn
  have hrn : Int.fmod c n < n := Int.fmod_lt_of_pos c hn
  rw [sum_split_shares n.toNat (Int.fdiv c n) (Int.fmod c n) hr0]
  have hnn : ((n.toNat : ℕ) : ℤ) = n := Int.toNat_of_nonneg (le_of_lt hn)
  have hmin : min (Int.fmod c n) ((n.toNat : ℕ) : ℤ) = Int.fmod c n := by
    rw [hnn]; exact min_eq_left (le_of_lt hrn)
  rw [hmin]
  have hnq : ((n.toNat : ℕ) : ℚ) = (n : ℚ) := by exact_mod_cast hnn
  have hsum : ((n.toNat : ℕ) : ℚ) * ((Int.fdiv c n : ℤ) : ℚ)
      + ((Int.fmod c n : ℤ) : ℚ) = (c : ℚ) := by
    have hz := Int.fdiv_add_fmod c n
    have hq : ((n * Int.fdiv c n + Int.fmod c n : ℤ) : ℚ) = (c : ℚ) := by
      rw [hz]
    push_cast at hq
    rw [hnq]
    linarith [hq]
  rw [hsum, roundTo2]

/-- Python `round` rounds to a nearest integer, and on an exact half it
picks the even neighbour. -/
lemma pyround_half_even (q : ℚ) :
    |q - (pyround q : ℚ)| ≤ 1/2 ∧
      (|q - (pyround q : ℚ)| = 1/2 → pyround q % 2 = 0) := by
  have hfl : ((⌊q⌋ : ℤ) : ℚ) ≤ q := Int.floor_le q
  have hfu : q < ((⌊q⌋ : ℤ) : ℚ) + 1 := Int.lt_floor_add_one q
  unfold pyround
  by_cases h1 : q - (⌊q⌋ : ℚ) < 1/2
  · rw [if_pos h1]
    constructor
    · rw [abs_of_nonneg (by linarith)]
      linarith
    · intro habs
      rw [abs_of_nonneg (by linarith)] at habs
      linarith
  · rw [if_neg h1]
    by_cases h2 : 1/2 < q - (⌊q⌋ : ℚ)
    · rw [if_pos h2]
      constructor
      · rw [abs_of_nonpos (by push_cast; linarith)]
        push_cast
        linarith
      · intro habs
        rw [abs_of_nonpos (by push_cast; linarith)] at habs
        push_cast at habs
        linarith
    · have heq : q - (⌊q⌋ : ℚ) = 1/2 := by linarith
      rw [if_neg h2]
      by_cases h3 : ⌊q⌋ % 2 = 0
      · rw [if_pos h3]
        refine ⟨by rw [abs_of_nonneg (by linarith)]; linarith, fun _ => h3⟩
      · rw [if_neg h3]
        have h4 : (⌊q⌋ + 1) % 2 = 0 := by omega
        refine ⟨?_, fun _ => h4⟩
        rw [abs_of_nonpos (by push_cast; linarith)]
        push_cast
        linarith

/-! ### Association-list algebra -/

lemma sumValues_cons (a : String × ℚ) (l : List (String × ℚ)) :
    sumValues (a :: l) = a.2 + sumValues l := by
  simp [sumValues]

lemma sumValues_append (a b : List (String × ℚ)) :
    sumValues (a ++ b) = sumValues a + sumValues b := by
  simp [sumValues]

lemma lookupSum_nil (u : String) : lookupSum [] u = 0 := rfl

lemma lookupSum_cons (k : String) (v : ℚ) (l : List (String × ℚ))
    (u : String) :
    lookupSum ((k, v) :: l) u = (if k = u then v else 0) + lookupSum l u := by
  by_cases h : k = u <;> simp [lookupSum, List.filter_cons, h]

lemma lookupSum_append (a b : List (String × ℚ)) (u : String) :
    lookupSum (a ++ b) u = lookupSum a u + lookupSum b u := by
  simp [lookupSum, List.filter_append]

lemma lookupSum_flatten (L : List (List (String × ℚ))) (u : String) :
    lookupSum L.flatten u = (L.map (fun l => lookupSum l u)).sum := by
  induction L with
  | nil => simp [lookupSum]
  | cons a L ih => simp [List.flatten_cons, lookupSum_append, ih]

lemma lookupSum_zip_not_mem (ks : List String) (vs : List ℚ) (u : String)
    (h : u ∉ ks) : lookupSum (ks.zip vs) u = 0 := by
  induction ks generalizing vs with
  | nil => simp [lookupSum]
  | cons k ks ih =>
    cases vs with
    | nil => simp [lookupSum]
    | cons v vs =>
      rw [List.zip_cons_cons, lookupSum_cons,
        if_neg (by rintro rfl; exact h (by simp)),
        ih vs (fun hm => h (by simp [hm]))]
      ring

lemma lookupSum_eq_zero_of_not_mem_keys (l : List (String × ℚ))
    (u : String) (h : u ∉ l.map Prod.fst) : lookupSum l u = 0 := by
  induction l with
  | nil => rfl
  | cons a l ih =>
    rcases a with ⟨k, v⟩
    rw [lookupSum_cons, if_neg (by rintro rfl; exact h (by simp)),
      ih (fun hm => h (by simp [hm]))]
    ring

lemma lookupSum_map_self (E : List String) (f : String → ℚ) (u : String)
    (hd : E.Nodup) (hu : u ∈ E) :
    lookupSum (E.map (fun x => (x, f x))) u = f u := by
  induction E with
  | nil => cases hu
  | cons a E ih =>
    rw [List.map_cons, lookupSum_cons]
    rcases List.mem_cons.mp hu with rfl | hmem
    · rw [if_pos rfl, lookupSum_eq_zero_of_not_mem_keys]
      · ring
      · rw [List.map_map]
        simpa using (List.nodup_cons.mp hd).1
    · rw [ih (List.nodup_cons.mp hd).2 hmem,
        if_neg (by rintro rfl; exact (List.nodup_cons.mp hd).1 hmem)]
      ring

lemma keys_map_update (l : List (String × ℚ)) (p : String) (S : ℚ) :
    (l.map (fun q => if q.1 = p then (q.1, S) else q)).map Prod.fst
      = l.map Prod.fst := by
  induction l with
  | nil => rfl
  | cons a l ih =>
    by_cases h : a.1 = p <;> simp [h, ih]

lemma lookupSum_map_update_ne (l : List (String × ℚ)) (p : String)
    (S : ℚ) (u : String) (hu : u ≠ p) :
    lookupSum (l.map (fun q => if q.1 = p then (q.1, S) else q)) u
      = lookupSum l u := by
  induction l with
  | nil => rfl
  | cons a l ih =>
    rcases a with ⟨k, v⟩
    by_cases h : k = p
    · subst h
      simp only [List.map_cons, if_pos rfl]
      rw [lookupSum_cons, lookupSum_cons, ih,
        if_neg (fun hk => hu hk.symm), if_neg (fun hk => hu hk.symm)]
    · simp only [List.map_cons, if_neg h]
      rw [lookupSum_cons, lookupSum_cons, ih]

lemma countP_eq_count_keys (l : List (String × ℚ)) (p : String) :
    l.countP (fun q => q.1 = p) = (l.map Prod.fst).count p := by
  induction l with
  | nil => rfl
  | cons a l ih =>
    rw [List.countP_cons, List.map_cons, List.count_cons, ih]
    by_cases h : a.1 = p <;> simp [h]

lemma sumValues_update (l : List (String × ℚ)) (p : String) (S : ℚ) :
    sumValues (l.map (fun q => if q.1 = p then (q.1, S) else q))
      = sumValues (l.filter (fun q => q.1 ≠ p))
        + (l.countP (fun q => q.1 = p) : ℚ) * S := by
  induction l with
  | nil => simp [sumValues]
  | cons a l ih =>
    by_cases h : a.1 = p
    · rw [List.map_cons, if_pos h, List.filter_cons, List.countP_cons,
        sumValues_cons, ih]
      simp only [h]
      simp
      ring
    · rw [List.map_cons, if_neg h, List.filter_cons, List.countP_cons,
        sumValues_cons, ih]
      simp only [h]
      simp [h, sumValues_cons]
      ring

/-! ### Facts about `buildTotals` -/

lemma keys_totals1 (pairs : List (String × ℚ)) (E : List String)
    (p : String) :
    ((if p ∈ E then E.map (fun uid => (uid, lookupSum pairs uid))
      else E.map (fun uid => (uid, lookupSum pairs uid)) ++ [(p, 0)]).map
        Prod.fst)
      = if p ∈ E then E else E ++ [p] := by
  have hcomp : Prod.fst ∘ (fun uid => ((uid, lookupSum pairs uid) : String × ℚ))
      = id := rfl
  by_cases hp : p ∈ E
  · rw [if_pos hp, if_pos hp, List.map_map, hcomp, List.map_id]
  · rw [if_neg hp, if_neg hp, List.map_append, List.map_map, hcomp,
      List.map_id]
    simp

lemma keys_buildTotals (pairs : List (String × ℚ)) (E : List String)
    (p : String) :
    (buildTotals pairs E p).map Prod.fst = if p ∈ E then E else E ++ [p] := by
  simp only [buildTotals]
  rw [keys_map_update, keys_totals1]

lemma count_keys_totals1 (pairs : List (String × ℚ)) (E : List String)
    (p : String) (hE : E.Nodup) :
    ((if p ∈ E then E.map (fun uid => (uid, lookupSum pairs uid))
      else E.map (fun uid => (uid, lookupSum pairs uid)) ++ [(p, 0)]).countP
        (fun q => q.1 = p)) = 1 := by
  rw [countP_eq_count_keys, keys_totals1]
  by_cases hp : p ∈ E
  · rw [if_pos hp]
    exact List.count_eq_one_of_mem hE hp
  · rw [if_neg hp, List.count_append, List.count_eq_zero_of_not_mem hp]
    simp

lemma sumValues_buildTotals (pairs : List (String × ℚ)) (E : List String)
    (p : String) (hE : E.Nodup) :
    sumValues (buildTotals pairs E p) = 0 := by
  simp only [buildTotals]
  rw [sumValues_update, count_keys_totals1 pairs E p hE]
  push_cast
  ring

lemma filter_ne_map_update (l : List (String × ℚ)) (p : String) (S : ℚ) :
    (l.map (fun q => if q.1 = p then (q.1, S) else q)).filter
        (fun q => q.1 ≠ p)
      = l.filter (fun q => q.1 ≠ p) := by
  induction l with
  | nil => rfl
  | cons a l ih =>
    by_cases h : a.1 = p
    · rw [List.map_cons, if_pos h, List.filter_cons, List.filter_cons,
        if_neg (by simp [h]), if_neg (by simp [h]), ih]
    · rw [List.map_cons, if_neg h, List.filter_cons, List.filter_cons,
        if_pos (by simp [h]), if_pos (by simp [h]), ih]

lemma lookupSum_map_update_self (l : List (String × ℚ)) (p : String)
    (S : ℚ) :
    lookupSum (l.map (fun q => if q.1 = p then (q.1, S) else q)) p
      = (l.countP (fun q => q.1 = p) : ℚ) * S := by
  induction l with
  | nil => simp [lookupSum]
  | cons a l ih =>
    by_cases h : a.1 = p
    · rw [List.map_cons, if_pos h, List.countP_cons]
      rw [show ((a.1, S) : String × ℚ) = (a.1, S) from rfl]
      rw [lookupSum_cons, if_pos h, ih]
      simp [h]
      ring
    · rw [List.map_cons, if_neg h, List.countP_cons]
      rcases a with ⟨k, v⟩
      rw [lookupSum_cons, if_neg h, ih]
      simp [h]

lemma lookupSum_buildTotals_ne (pairs : List (String × ℚ))
    (E : List String) (p u : String) (hE : E.Nodup) (hu : u ∈ E)
    (hup : u ≠ p) :
    lookupSum (buildTotals pairs E p) u = lookupSum pairs u := by
  simp only [buildTotals]
  rw [lookupSum_map_update_ne _ _ _ _ hup]
  by_cases hp : p ∈ E
  · rw [if_pos hp, lookupSum_map_self E _ u hE hu]
  · rw [if_neg hp, lookupSum_append, lookupSum_map_self E _ u hE hu,
      lookupSum_cons, if_neg (fun h => hup h.symm), lookupSum_nil]
    ring

lemma lookupSum_buildTotals_payer (pairs : List (String × ℚ))
    (E : List String) (p : String) (hE : E.Nodup) :
    lookupSum (buildTotals pairs E p) p
      = -(sumValues ((buildTotals pairs E p).filter (fun q => q.1 ≠ p))) := by
  simp only [buildTotals]
  rw [lookupSum_map_update_self, count_keys_totals1 pairs E p hE,
    filter_ne_map_update]
  push_cast
  ring

/-! ### The aggregator's success path -/

lemma splitwise_split_eq_splitList (t : ℚ) (m : ℕ) (hm : 0 < m)
    (ht : 0 ≤ t) :
    splitwise_split t (m : ℤ) = .ok (splitList t m) := by
  rw [splitwise_split_eq t (m : ℤ) (by exact_mod_cast hm) ht]
  simp [splitList]

lemma itemAlloc_ok (votes : VoteMap) (it : Item) (h : 0 ≤ it.price) :
    itemAlloc votes it = .ok (itemPairs votes it) := by
  unfold itemAlloc itemPairs
  by_cases ht : it.isTaxOrTip
  · simp [ht]
  · simp only [ht, Bool.false_eq_true, if_false]
    by_cases he : (getVotes votes it.id).isEmpty
    · simp [he]
    · have hlen : 0 < (getVotes votes it.id).length := by
        cases hL : getVotes votes it.id with
        | nil => rw [hL] at he; simp at he
        | cons a l => simp [hL]
      rw [if_neg (by simp [he]), if_neg (by simp [he]),
        splitwise_split_eq_splitList _ _ hlen h]
      rfl

lemma taxAlloc_ok (items : List Item) (votes : VoteMap)
    (hE : allEaters votes ≠ []) :
    taxAlloc items votes = .ok (taxPairs items votes) := by
  unfold taxAlloc taxPairs
  by_cases hp : 0 < taxPool items
  · have hlen : 0 < (allEaters votes).length := by
      cases hL : allEaters votes with
      | nil => exact absurd hL hE
      | cons a l => simp [hL]
    rw [if_pos hp, if_pos hp,
      splitwise_split_eq_splitList _ _ hlen (le_of_lt hp)]
    rfl
  · rw [if_neg hp, if_neg hp]

lemma collectE_map_ok (items : List Item) (votes : VoteMap)
    (hpr : ∀ it ∈ items, 0 ≤ it.price) :
    collectE (items.map (itemAlloc votes)) = .ok (items.map (itemPairs votes)) := by
  induction items with
  | nil => rfl
  | cons it items ih =>
    rw [List.map_cons, List.map_cons,
      itemAlloc_ok votes it (hpr it (by simp))]
    unfold collectE
    rw [ih (fun i hi => hpr i (by simp [hi]))]

lemma calculate_bill_split_empty (items : List Item) (votes : VoteMap)
    (payerId : String) (hE : allEaters votes = []) :
    calculate_bill_split items votes payerId = .ok ⟨payerId, [(payerId, 0)]⟩ := by
  unfold calculate_bill_split
  rw [if_pos (by simp [hE])]

lemma calculate_bill_split_ok (items : List Item) (votes : VoteMap)
    (payerId : String) (hE : allEaters votes ≠ [])
    (hpr : ∀ it ∈ items, 0 ≤ it.price) :
    calculate_bill_split items votes payerId
      = .ok ⟨payerId,
          buildTotals (billPairs items votes) (allEaters votes) payerId⟩ := by
  unfold calculate_bill_split
  rw [if_neg (by simp [hE]), collectE_map_ok items votes hpr,
    taxAlloc_ok items votes hE]
  dsimp only
  have hz : sumValues
      (buildTotals (billPairs items votes) (allEaters votes) payerId) = 0 :=
    sumValues_buildTotals _ _ _ (List.nodup_dedup _)
  rw [show (items.map (itemPairs votes)).flatten ++ taxPairs items votes
      = billPairs items votes from rfl]
  rw [if_pos (by rw [hz]; norm_num)]

lemma calculate_bill_split_old_empty (items : List Item) (votes : VoteMap)
    (payerId : String) (hE : allEaters votes = []) :
    calculate_bill_split_old items votes payerId
      = .ok ⟨payerId, [(payerId, 0)]⟩ := by
  unfold calculate_bill_split_old
  rw [if_pos (by simp [hE])]

/-! ### Cent-multiple values -/

lemma cent_add {a b : ℚ} (ha : ∃ k : ℤ, a = (k : ℚ)/100)
    (hb : ∃ k : ℤ, b = (k : ℚ)/100) : ∃ k : ℤ, a + b = (k : ℚ)/100 := by
  obtain ⟨k1, rfl⟩ := ha
  obtain ⟨k2, rfl⟩ := hb
  exact ⟨k1 + k2, by push_cast; ring⟩

lemma cent_neg {a : ℚ} (ha : ∃ k : ℤ, a = (k : ℚ)/100) :
    ∃ k : ℤ, -a = (k : ℚ)/100 := by
  obtain ⟨k1, rfl⟩ := ha
  exact ⟨-k1, by push_cast; ring⟩

lemma splitList_cent (t : ℚ) (m : ℕ) :
    ∀ q ∈ splitList t m, ∃ k : ℤ, q = (k : ℚ)/100 := by
  intro q hq
  simp only [splitList, List.mem_map] at hq
  obtain ⟨i, _, hif⟩ := hq
  by_cases hc : (i : ℤ) < Int.fmod (pyround (t * 100)) (m : ℤ)
  · rw [if_pos hc] at hif
    exact ⟨_, hif.symm⟩
  · rw [if_neg hc] at hif
    exact ⟨_, hif.symm⟩

lemma zip_snd_cent (ks : List String) (vs : List ℚ)
    (h : ∀ q ∈ vs, ∃ k : ℤ, q = (k : ℚ)/100) :
    ∀ pr ∈ ks.zip vs, ∃ k : ℤ, pr.2 = (k : ℚ)/100 := by
  intro pr hpr
  exact h pr.2 (List.of_mem_zip hpr).2

lemma billPairs_cent (items : List Item) (votes : VoteMap) :
    ∀ pr ∈ billPairs items votes, ∃ k : ℤ, pr.2 = (k : ℚ)/100 := by
  intro pr hpr
  rcases List.mem_append.mp hpr with hin | hin
  · obtain ⟨l, hl, hprl⟩ := List.mem_flatten.mp hin
    obtain ⟨it, _, rfl⟩ := List.mem_map.mp hl
    unfold itemPairs at hprl
    by_cases ht : it.isTaxOrTip
    · simp [ht] at hprl
    · simp only [ht, Bool.false_eq_true, if_false] at hprl
      by_cases he : (getVotes votes it.id).isEmpty
      · simp [he] at hprl
      · rw [if_neg (by simp [he])] at hprl
        exact zip_snd_cent _ _ (splitList_cent _ _) pr hprl
  · unfold taxPairs at hin
    by_cases hp : 0 < taxPool items
    · rw [if_pos hp] at hin
      exact zip_snd_cent _ _ (splitList_cent _ _) pr hin
    · simp [hp] at hin

lemma lookupSum_cent (l : List (String × ℚ)) (u : String)
    (h : ∀ pr ∈ l, ∃ k : ℤ, pr.2 = (k : ℚ)/100) :
    ∃ k : ℤ, lookupSum l u = (k : ℚ)/100 := by
  induction l with
  | nil => exact ⟨0, by simp [lookupSum]⟩
  | cons a l ih =>
    rcases a with ⟨k, v⟩
    rw [lookupSum_cons]
    refine cent_add ?_ (ih (fun pr hpr => h pr (by simp [hpr])))
    by_cases hk : k = u
    · rw [if_pos hk]
      exact h (k, v) (by simp)
    · exact ⟨0, by simp [hk]⟩

lemma sumValues_cent (l : List (String × ℚ))
    (h : ∀ pr ∈ l, ∃ k : ℤ, pr.2 = (k : ℚ)/100) :
    ∃ k : ℤ, sumValues l = (k : ℚ)/100 := by
  induction l with
  | nil => exact ⟨0, by simp [sumValues]⟩
  | cons a l ih =>
    rw [sumValues_cons]
    exact cent_add (h a (by simp)) (ih (fun pr hpr => h pr (by simp [hpr])))

lemma buildTotals_values_cent (pairs : List (String × ℚ))
    (E : List String) (p : String)
    (hc : ∀ pr ∈ pairs, ∃ k : ℤ, pr.2 = (k : ℚ)/100) :
    ∀ pr ∈ buildTotals pairs E p, ∃ k : ℤ, pr.2 = (k : ℚ)/100 := by
  have h1 : ∀ pr ∈ (if p ∈ E then E.map (fun uid => (uid, lookupSum pairs uid))
      else E.map (fun uid => (uid, lookupSum pairs uid)) ++ [(p, 0)]),
      ∃ k : ℤ, pr.2 = (k : ℚ)/100 := by
    intro pr hpr
    by_cases hp : p ∈ E
    · rw [if_pos hp] at hpr
      obtain ⟨u, _, rfl⟩ := List.mem_map.mp hpr
      exact lookupSum_cent pairs u hc
    · rw [if_neg hp] at hpr
      rcases List.mem_append.mp hpr with hin | hin
      · obtain ⟨u, _, rfl⟩ := List.mem_map.mp hin
        exact lookupSum_cent pairs u hc
      · rw [List.mem_singleton.mp hin]
        exact ⟨0, by norm_num⟩
  intro pr hpr
  simp only [buildTotals] at hpr
  obtain ⟨q, hq, hpr⟩ := List.mem_map.mp hpr
  by_cases hqp : q.1 = p
  · rw [if_pos hqp] at hpr
    rw [← hpr]
    refine cent_neg (sumValues_cent _ ?_)
    intro w hw
    exact h1 w (List.mem_of_mem_filter hw)
  · rw [if_neg hqp] at hpr
    rw [← hpr]
    exact h1 q hq

lemma q2up_cent (q : ℚ) : ∃ k : ℤ, q2up q = (k : ℚ)/100 :=
  ⟨halfUpZ (q * 100), rfl⟩

lemma oldRounded_values_cent (items : List Item) (votes : VoteMap)
    (payerId : String) :
    ∀ pr ∈ oldRounded items votes payerId, ∃ k : ℤ, pr.2 = (k : ℚ)/100 := by
  intro pr hpr
  obtain ⟨u, _, rfl⟩ := List.mem_map.mp hpr
  exact q2up_cent _

lemma sumValues_oldTotals (items : List Item) (votes : VoteMap)
    (payerId : String) :
    sumValues (oldTotals items votes payerId) = 0 := by
  unfold oldTotals
  obtain ⟨k, hk⟩ :=
    sumValues_cent _ (oldRounded_values_cent items votes payerId)
  rw [sumValues_append, hk, sumValues_cons,
    show sumValues [] = 0 from rfl,
    show -((k : ℚ)/100) = ((-k : ℤ) : ℚ)/100 by push_cast; ring,
    q2up_int_div]
  push_cast
  ring

lemma calculate_bill_split_old_ok (items : List Item) (votes : VoteMap)
    (payerId : String) (hE : allEaters votes ≠ []) :
    calculate_bill_split_old items votes payerId
      = .ok ⟨payerId, oldTotals items votes payerId⟩ := by
  unfold calculate_bill_split_old
  rw [if_neg (by simp [hE])]
  dsimp only
  rw [if_pos (by rw [sumValues_oldTotals]; norm_num)]

lemma lookupSum_oldTotals_ne (items : List Item) (votes : VoteMap)
    (payerId u : String) (hu : u ∈ allEaters votes) (hup : u ≠ payerId) :
    lookupSum (oldTotals items votes payerId) u
      = q2up (oldUserTotal items votes u) := by
  unfold oldTotals oldRounded
  have hnd : ((allEaters votes).filter (fun x => x ≠ payerId)).Nodup :=
    (List.nodup_dedup _).filter _
  have hmem : u ∈ (allEaters votes).filter (fun x => x ≠ payerId) :=
    List.mem_filter.mpr ⟨hu, by simp [hup]⟩
  rw [lookupSum_append, lookupSum_map_self _ _ _ hnd hmem, lookupSum_cons,
    if_neg (fun h => hup h.symm), lookupSum_nil]
  ring

lemma keys_oldRounded (items : List Item) (votes : VoteMap)
    (payerId : String) :
    (oldRounded items votes payerId).map Prod.fst
      = (allEaters votes).filter (fun x => x ≠ payerId) := by
  unfold oldRounded
  rw [List.map_map]
  have hcomp : Prod.fst ∘
      (fun u => ((u, q2up (oldUserTotal items votes u)) : String × ℚ))
      = id := rfl
  rw [hcomp, List.map_id]

lemma lookupSum_oldTotals_payer (items : List Item) (votes : VoteMap)
    (payerId : String) :
    lookupSum (oldTotals items votes payerId) payerId
      = q2up (-(sumValues (oldRounded items votes payerId))) := by
  unfold oldTotals
  rw [lookupSum_append, lookupSum_cons, if_pos rfl, lookupSum_nil]
  rw [lookupSum_eq_zero_of_not_mem_keys _ _ ?_]
  · ring
  · rw [keys_oldRounded]
    intro hmem
    have := List.mem_filter.mp hmem
    simp at this

lemma filter_oldTotals (items : List Item) (votes : VoteMap)
    (payerId : String) :
    (oldTotals items votes payerId).filter (fun q => q.1 ≠ payerId)
      = oldRounded items votes payerId := by
  unfold oldTotals
  rw [List.filter_append]
  have h1 : (oldRounded items votes payerId).filter
      (fun q => q.1 ≠ payerId) = oldRounded items votes payerId := by
    apply List.filter_eq_self.mpr
    intro pr hpr
    obtain ⟨u, hu, rfl⟩ := List.mem_map.mp hpr
    have := (List.mem_filter.mp hu).2
    simpa using this
  have h2 : ([(payerId,
      q2up (-(sumValues (oldRounded items votes payerId))))].filter
        (fun q => q.1 ≠ payerId) : List (String × ℚ)) = [] := by
    simp
  rw [h1, h2, List.append_nil]

lemma oldTotals_values_cent (items : List Item) (votes : VoteMap)
    (payerId : String) :
    ∀ pr ∈ oldTotals items votes payerId, ∃ k : ℤ, pr.2 = (k : ℚ)/100 := by
  intro pr hpr
  unfold oldTotals at hpr
  rcases List.mem_append.mp hpr with hin | hin
  · exact oldRounded_values_cent items votes payerId pr hin
  · rw [List.mem_singleton.mp hin]
    exact q2up_cent _

/-! ### Per-user decomposition of the accumulated pairs -/

lemma lookupSum_itemPairs (votes : VoteMap) (it : Item) (uid : String) :
    lookupSum (itemPairs votes it) uid = specItemShare votes it uid := by
  unfold itemPairs specItemShare
  by_cases ht : it.isTaxOrTip
  · simp [ht, lookupSum]
  · simp only [ht, Bool.false_eq_true, if_false]
    by_cases he : (getVotes votes it.id).isEmpty
    · have h0 : getVotes votes it.id = [] := by
        cases hL : getVotes votes it.id with
        | nil => rfl
        | cons a l => rw [hL] at he; simp at he
      simp [h0, lookupSum]
    · rw [if_neg (by simp [he])]

lemma lookupSum_taxPairs (items : List Item) (votes : VoteMap)
    (uid : String) :
    lookupSum (taxPairs items votes) uid = specTaxShare items votes uid := by
  unfold taxPairs specTaxShare
  by_cases hp : 0 < taxPool items
  · rw [if_pos hp, if_pos hp]
  · rw [if_neg hp, if_neg hp, lookupSum_nil]

lemma lookupSum_billPairs (items : List Item) (votes : VoteMap)
    (uid : String) :
    lookupSum (billPairs items votes) uid
      = (items.map (fun it => specItemShare votes it uid)).sum
        + specTaxShare items votes uid := by
  unfold billPairs
  rw [lookupSum_append, lookupSum_flatten, List.map_map,
    lookupSum_taxPairs]
  congr 1
  apply congrArg List.sum
  apply List.map_congr_left
  intro it _
  exact lookupSum_itemPairs votes it uid

lemma specItemShare_eq_zero_of_not_voter (votes : VoteMap) (it : Item)
    (uid : String) (h : uid ∉ getVotes votes it.id) :
    specItemShare votes it uid = 0 := by
  unfold specItemShare
  by_cases ht : it.isTaxOrTip
  · simp [ht]
  · simp only [ht, Bool.false_eq_true, if_false]
    exact lookupSum_zip_not_mem _ _ _ h

lemma collectE_append_ok_nil
    (l : List (Except String (List (String × ℚ)))) :
    collectE (l ++ [.ok []])
      = match collectE l with
        | .error e => .error e
        | .ok as_ => .ok (as_ ++ [[]]) := by
  induction l with
  | nil => rfl
  | cons a l ih =>
    cases a with
    | error e => rfl
    | ok x =>
      rw [List.cons_append]
      unfold collectE
      rw [ih]
      cases collectE l with
      | error e => rfl
      | ok as_ => rfl

lemma allEaters_nodup (votes : VoteMap) : (allEaters votes).Nodup :=
  List.nodup_dedup _

lemma q2up_zero : q2up 0 = 0 := by
  rw [show (0 : ℚ) = ((0 : ℤ) : ℚ)/100 by norm_num, q2up_int_div]

lemma oldItemShare_eq_oldSpecShare (votes : VoteMap) (it : Item)
    (uid : String) :
    oldItemShare votes it uid = oldSpecShare votes it uid := by
  unfold oldItemShare oldSpecShare
  by_cases ht : it.isTaxOrTip = true
  · rw [if_pos ht, if_neg (by rw [ht]; rintro ⟨h, _⟩; cases h)]
  · have hf : it.isTaxOrTip = false := by
      cases h : it.isTaxOrTip
      · rfl
      · exact absurd h ht
    rw [if_neg ht]
    by_cases he : (getVotes votes it.id).isEmpty
    · have h0 : getVotes votes it.id = [] := by
        cases hL : getVotes votes it.id with
        | nil => rfl
        | cons a l => rw [hL] at he; simp at he
      rw [if_pos (by rw [h0]; rfl), if_neg (by rw [h0]; rintro ⟨_, hm⟩; cases hm)]
    · rw [if_neg he]
      by_cases hm : uid ∈ getVotes votes it.id
      · rw [if_pos ⟨hf, hm⟩]
      · rw [if_neg (fun hc => hm hc.2), List.count_eq_zero_of_not_mem hm]
        norm_num

end SplitCalc

open SplitCalc

/-- C1: for every `total_amount ≥ 0` and `participant_count ≥ 1`, the
equal-split primitive `splitwise_split` succeeds and the returned shares
sum exactly to `total_amount` rounded to two decimal places; no minor
unit is lost or gained, for any magnitude of `total_amount` and any
`participant_count`. -/
theorem C1_split_sum_exact (t : ℚ) (n : ℤ) (ht : 0 ≤ t) (hn : 1 ≤ n) :
    ∃ l, splitwise_split t n = .ok l ∧ l.sum = roundTo2 t :=
  splitwise_split_sum t n (by omega) ht

/-- Witness for C1 at `total_amount = 10`, `participant_count = 3`. -/
theorem C1_split_sum_exact_witness :
    (0 : ℚ) ≤ 10 ∧ (1 : ℤ) ≤ 3 ∧
      ∃ l, splitwise_split 10 3 = .ok l ∧ l.sum = roundTo2 10 :=
  ⟨by norm_num, by norm_num, C1_split_sum_exact 10 3 (by norm_num) (by norm_num)⟩

/-- Evaluation of the primitive on the spec's `split_equally(10.00, 3)`
example: `total_cents = 1000`, `base = 333`, `remainder = 1`. -/
lemma splitwise_split_ten_three :
    splitwise_split 10 3 = .ok [334/100, 333/100, 333/100] := by
  rw [splitwise_split_eq 10 3 (by norm_num) (by norm_num)]
  have hc : pyround ((10 : ℚ) * 100) = 1000 := by
    rw [show ((10 : ℚ) * 100) = ((1000 : ℤ) : ℚ) by norm_num]
    exact pyround_intCast 1000
  have hd : Int.fdiv 1000 3 = 333 := by decide
  have hm : Int.fmod 1000 3 = 1 := by decide
  rw [hc, hd, hm]
  have h3 : (3 : ℤ).toNat = 3 := by decide
  rw [h3, show List.range 3 = [0, 1, 2] by decide]
  norm_num

/-- C3: for `total_amount ≥ 0` and `participant_count ≥ 1`, with
`total_minor` the amount in cents, `base = total_minor div
participant_count` and `remainder = total_minor mod participant_count`,
the primitive returns exactly `participant_count` values, the first
`remainder` of them `base + 1` cents and the rest `base` cents; in
particular `splitwise_split(10.00, 3) = [3.34, 3.33, 3.33]`. -/
theorem C3_remainder_to_first_positions (t : ℚ) (n : ℤ)
    (ht : 0 ≤ t) (hn : 1 ≤ n) :
    (∃ l, splitwise_split t n = .ok l ∧
      l.length = n.toNat ∧
      ∀ i : ℕ, ∀ hi : i < l.length,
        l.get ⟨i, hi⟩ =
          if (i : ℤ) < Int.fmod (pyround (t * 100)) n
          then ((Int.fdiv (pyround (t * 100)) n + 1 : ℤ) : ℚ) / 100
          else ((Int.fdiv (pyround (t * 100)) n : ℤ) : ℚ) / 100) ∧
    splitwise_split 10 3 = .ok [334/100, 333/100, 333/100] := by
  refine ⟨⟨_, splitwise_split_eq t n (by omega) ht, ?_, ?_⟩,
    splitwise_split_ten_three⟩
  · simp
  · intro i hi
    simp only [List.length_map, List.length_range] at hi
    simp [List.get_eq_getElem, List.getElem_map, List.getElem_range]

/-- Witness for C3 at `total_amount = 10`, `participant_count = 3`. -/
theorem C3_remainder_to_first_positions_witness :
    (0 : ℚ) ≤ 10 ∧ (1 : ℤ) ≤ 3 ∧
      ((∃ l, splitwise_split 10 3 = .ok l ∧
        l.length = (3 : ℤ).toNat ∧
        ∀ i : ℕ, ∀ hi : i < l.length,
          l.get ⟨i, hi⟩ =
            if (i : ℤ) < Int.fmod (pyround ((10 : ℚ) * 100)) 3
            then ((Int.fdiv (pyround ((10 : ℚ) * 100)) 3 + 1 : ℤ) : ℚ) / 100
            else ((Int.fdiv (pyround ((10 : ℚ) * 100)) 3 : ℤ) : ℚ) / 100) ∧
      splitwise_split 10 3 = .ok [334/100, 333/100, 333/100]) :=
  ⟨by norm_num, by norm_num,
    C3_remainder_to_first_positions 10 3 (by norm_num) (by norm_num)⟩

/-- C5: the primitive fails if and only if `participant_count ≤ 0` or
`total_amount < 0`; on every other input it returns normally. -/
theorem C5_error_iff (t : ℚ) (n : ℤ) :
    (∃ e, splitwise_split t n = .error e) ↔ (n ≤ 0 ∨ t < 0) := by
  unfold splitwise_split
  by_cases h1 : n ≤ 0
  · simp [h1]
  · by_cases h2 : t < 0
    · simp [h1, h2]
    · simp [h1, h2]

/-- C4 counterexample: at `total_amount = 0.125` (exactly representable)
and one participant, the code converts `0.125 * 100 = 12.5` to `12`
cents (Python `round`, ties to even) and returns `[0.12]`, whereas
round-half-up would give `13` cents. -/
theorem C4_counterexample :
    splitwise_split (1/8 : ℚ) 1 = .ok [(12 : ℚ)/100] ∧
      halfUpZ ((1/8 : ℚ) * 100) = 13 ∧
      pyround ((1/8 : ℚ) * 100) ≠ halfUpZ ((1/8 : ℚ) * 100) := by
  have hc : pyround ((1/8 : ℚ) * 100) = 12 := by
    rw [show ((1/8 : ℚ) * 100) = 25/2 by norm_num]
    unfold pyround
    norm_num
  have hup : halfUpZ ((1/8 : ℚ) * 100) = 13 := by
    rw [show ((1/8 : ℚ) * 100) = 25/2 by norm_num]
    unfold halfUpZ
    rw [if_pos (by norm_num)]
    norm_num
  refine ⟨?_, hup, by rw [hc, hup]; decide⟩
  rw [splitwise_split_eq (1/8) 1 (by norm_num) (by norm_num), hc]
  rw [show List.range (Int.toNat 1) = [0] from rfl]
  norm_num

/-- C4 amended: the conversion of `total_amount` to cents inside the
primitive is Python's `round` — nearest integer with ties to the even
neighbour (banker's rounding), not half-up; the cents count `k` used by
the primitive satisfies `|total_amount * 100 - k| ≤ 1/2` with ties
resolved to an even `k`. -/
theorem C4_cents_round_half_even (t : ℚ) (ht : 0 ≤ t) :
    ∃ k : ℤ, splitwise_split t 1 = .ok [(k : ℚ) / 100] ∧
      k = pyround (t * 100) ∧
      |t * 100 - (k : ℚ)| ≤ 1/2 ∧
      (|t * 100 - (k : ℚ)| = 1/2 → k % 2 = 0) := by
  refine ⟨pyround (t * 100), ?_, rfl, (pyround_half_even (t * 100)).1,
    (pyround_half_even (t * 100)).2⟩
  rw [splitwise_split_eq t 1 (by norm_num) ht]
  rw [show List.range (Int.toNat 1) = [0] from rfl]
  simp

/-- Witness for the amended C4 at `total_amount = 0.125`. -/
theorem C4_cents_round_half_even_witness :
    (0 : ℚ) ≤ 1/8 ∧
      ∃ k : ℤ, splitwise_split (1/8) 1 = .ok [(k : ℚ) / 100] ∧
        k = pyround ((1/8 : ℚ) * 100) ∧
        |(1/8 : ℚ) * 100 - (k : ℚ)| ≤ 1/2 ∧
        (|(1/8 : ℚ) * 100 - (k : ℚ)| = 1/2 → k % 2 = 0) :=
  ⟨by norm_num, C4_cents_round_half_even (1/8) (by norm_num)⟩

/-- C2: for every items list with non-negative prices, every votes
mapping and every payer id, both aggregation variants return normally
with totals summing to exactly zero — in particular within one minor
unit of zero — so the zero-sum `assert` (tolerance `0.01`) checked
before returning never fails. -/
theorem C2_conservation_and_assert (items : List Item) (votes : VoteMap)
    (payerId : String) (hpr : ∀ it ∈ items, 0 ≤ it.price) :
    (∃ r, calculate_bill_split items votes payerId = .ok r ∧
      sumValues r.totals = 0 ∧ |sumValues r.totals| < 1/100) ∧
    (∃ r, calculate_bill_split_old items votes payerId = .ok r ∧
      sumValues r.totals = 0 ∧ |sumValues r.totals| < 1/100) := by
  have h0 : sumValues [(payerId, (0 : ℚ))] = 0 := by simp [sumValues]
  constructor
  · by_cases hE : allEaters votes = []
    · exact ⟨_, calculate_bill_split_empty items votes payerId hE,
        h0, by rw [h0]; norm_num⟩
    · have hz := sumValues_buildTotals (billPairs items votes)
        (allEaters votes) payerId (List.nodup_dedup _)
      exact ⟨_, calculate_bill_split_ok items votes payerId hE hpr,
        hz, by rw [hz]; norm_num⟩
  · by_cases hE : allEaters votes = []
    · exact ⟨_, calculate_bill_split_old_empty items votes payerId hE,
        h0, by rw [h0]; norm_num⟩
    · have hz := sumValues_oldTotals items votes payerId
      exact ⟨_, calculate_bill_split_old_ok items votes payerId hE,
        hz, by rw [hz]; norm_num⟩

/-- Witness for C2 on a concrete bill. -/
theorem C2_conservation_and_assert_witness :
    (∀ it ∈ [Item.mk "1" 10 false], 0 ≤ it.price) ∧
    ((∃ r, calculate_bill_split [Item.mk "1" 10 false]
        [("1", ["A", "B", "C"])] "A" = .ok r ∧
      sumValues r.totals = 0 ∧ |sumValues r.totals| < 1/100) ∧
    (∃ r, calculate_bill_split_old [Item.mk "1" 10 false]
        [("1", ["A", "B", "C"])] "A" = .ok r ∧
      sumValues r.totals = 0 ∧ |sumValues r.totals| < 1/100)) := by
  have hp : ∀ it ∈ [Item.mk "1" 10 false], 0 ≤ it.price := by
    intro it hit
    rw [List.mem_singleton] at hit
    subst hit
    norm_num
  exact ⟨hp, C2_conservation_and_assert [Item.mk "1" 10 false]
    [("1", ["A", "B", "C"])] "A" hp⟩

/-- C6: in both variants the payer's value equals the minor-unit
rounding of the negated sum of all non-payer totals, and every value in
the totals mapping is a whole number of cents. -/
theorem C6_payer_balances (items : List Item) (votes : VoteMap)
    (payerId : String) (hpr : ∀ it ∈ items, 0 ≤ it.price) :
    (∃ r, calculate_bill_split items votes payerId = .ok r ∧
      lookupSum r.totals payerId
        = q2up (-(sumValues (r.totals.filter (fun q => q.1 ≠ payerId)))) ∧
      ∀ pr ∈ r.totals, ∃ k : ℤ, pr.2 = (k : ℚ)/100) ∧
    (∃ r, calculate_bill_split_old items votes payerId = .ok r ∧
      lookupSum r.totals payerId
        = q2up (-(sumValues (r.totals.filter (fun q => q.1 ≠ payerId)))) ∧
      ∀ pr ∈ r.totals, ∃ k : ℤ, pr.2 = (k : ℚ)/100) := by
  have hsingle : lookupSum [(payerId, (0:ℚ))] payerId
      = q2up (-(sumValues ([(payerId, (0:ℚ))].filter
          (fun q => q.1 ≠ payerId)))) := by
    rw [lookupSum_cons, if_pos rfl, lookupSum_nil,
      show ([(payerId, (0:ℚ))].filter (fun q => q.1 ≠ payerId)) = [] by simp,
      show sumValues [] = 0 from rfl]
    rw [neg_zero, q2up_zero]
    norm_num
  have hsingle2 : ∀ pr ∈ [(payerId, (0:ℚ))], ∃ k : ℤ, pr.2 = (k : ℚ)/100 := by
    intro pr hpr2
    rw [List.mem_singleton.mp hpr2]
    exact ⟨0, by norm_num⟩
  constructor
  · by_cases hE : allEaters votes = []
    · exact ⟨_, calculate_bill_split_empty items votes payerId hE,
        hsingle, hsingle2⟩
    · refine ⟨_, calculate_bill_split_ok items votes payerId hE hpr, ?_, ?_⟩
      · dsimp only
        have hvals := buildTotals_values_cent (billPairs items votes)
          (allEaters votes) payerId (billPairs_cent items votes)
        obtain ⟨k, hk⟩ := sumValues_cent _
          (fun pr hpr2 => hvals pr (List.mem_of_mem_filter hpr2))
        rw [lookupSum_buildTotals_payer (billPairs items votes)
            (allEaters votes) payerId (allEaters_nodup votes), hk,
          show -((k : ℚ)/100) = ((-k : ℤ) : ℚ)/100 by push_cast; ring,
          q2up_int_div]
      · exact buildTotals_values_cent (billPairs items votes)
          (allEaters votes) payerId (billPairs_cent items votes)
  · by_cases hE : allEaters votes = []
    · exact ⟨_, calculate_bill_split_old_empty items votes payerId hE,
        hsingle, hsingle2⟩
    · refine ⟨_, calculate_bill_split_old_ok items votes payerId hE, ?_, ?_⟩
      · dsimp only
        rw [lookupSum_oldTotals_payer, filter_oldTotals]
      · exact oldTotals_values_cent items votes payerId

/-- Witness for C6 on a concrete bill. -/
theorem C6_payer_balances_witness :
    (∀ it ∈ [Item.mk "1" 10 false], 0 ≤ it.price) ∧
    ((∃ r, calculate_bill_split [Item.mk "1" 10 false]
        [("1", ["A", "B", "C"])] "A" = .ok r ∧
      lookupSum r.totals "A"
        = q2up (-(sumValues (r.totals.filter (fun q => q.1 ≠ "A")))) ∧
      ∀ pr ∈ r.totals, ∃ k : ℤ, pr.2 = (k : ℚ)/100) ∧
    (∃ r, calculate_bill_split_old [Item.mk "1" 10 false]
        [("1", ["A", "B", "C"])] "A" = .ok r ∧
      lookupSum r.totals "A"
        = q2up (-(sumValues (r.totals.filter (fun q => q.1 ≠ "A")))) ∧
      ∀ pr ∈ r.totals, ∃ k : ℤ, pr.2 = (k : ℚ)/100)) := by
  have hp : ∀ it ∈ [Item.mk "1" 10 false], 0 ≤ it.price := by
    intro it hit
    rw [List.mem_singleton] at hit
    subst hit
    norm_num
  exact ⟨hp, C6_payer_balances [Item.mk "1" 10 false]
    [("1", ["A", "B", "C"])] "A" hp⟩

/-- C7: in the primary aggregator a non-tax item whose voter list is
empty or absent contributes nothing — appending such an item (any
price, zero voters) leaves the entire result unchanged. -/
theorem C7_zero_voter_item_dropped (items : List Item) (votes : VoteMap)
    (payerId : String) (it : Item) (hnt : it.isTaxOrTip = false)
    (hv : getVotes votes it.id = []) :
    calculate_bill_split (items ++ [it]) votes payerId
      = calculate_bill_split items votes payerId := by
  have hia : itemAlloc votes it = .ok [] := by
    unfold itemAlloc
    rw [hnt]
    simp [hv]
  unfold calculate_bill_split
  by_cases hE : (allEaters votes).isEmpty
  · rw [if_pos hE, if_pos hE]
  · rw [if_neg hE, if_neg hE, List.map_append, List.map_singleton, hia,
      collectE_append_ok_nil]
    have hta : taxAlloc (items ++ [it]) votes = taxAlloc items votes := by
      unfold taxAlloc
      rw [show taxPool (items ++ [it]) = taxPool items by
        unfold taxPool; rw [List.filter_append]; simp [hnt]]
    rw [hta]
    cases hce : collectE (items.map (itemAlloc votes)) with
    | error e => rfl
    | ok allocs =>
      dsimp only
      cases hta2 : taxAlloc items votes with
      | error e => rfl
      | ok tA =>
        dsimp only
        rw [List.flatten_append]
        simp

/-- Witness for C7: appending a voteless 5.00 item to an empty bill. -/
theorem C7_zero_voter_item_dropped_witness :
    (Item.mk "2" 5 false).isTaxOrTip = false ∧
    getVotes [("1", ["A"])] (Item.mk "2" 5 false).id = [] ∧
    calculate_bill_split ([] ++ [Item.mk "2" 5 false]) [("1", ["A"])] "A"
      = calculate_bill_split [] [("1", ["A"])] "A" :=
  ⟨rfl, rfl, C7_zero_voter_item_dropped [] [("1", ["A"])] "A"
    (Item.mk "2" 5 false) rfl rfl⟩

/-- C8: tax/tip items are never divided among their own voters — their
allocation step contributes nothing — and every non-payer eater's total
decomposes as the sum of vote-respecting per-item shares plus a share
of the pooled tax/tip, the pool being split by the primitive among the
whole eater set (when positive). -/
theorem C8_tax_pool_split_among_eaters (items : List Item)
    (votes : VoteMap) (payerId : String) (hE : allEaters votes ≠ [])
    (hpr : ∀ it ∈ items, 0 ≤ it.price) :
    (∀ it ∈ items, it.isTaxOrTip = true → itemAlloc votes it = .ok []) ∧
    ∃ r, calculate_bill_split items votes payerId = .ok r ∧
      ∀ uid ∈ allEaters votes, uid ≠ payerId →
        lookupSum r.totals uid
          = (items.map (fun it => specItemShare votes it uid)).sum
            + specTaxShare items votes uid := by
  constructor
  · intro it _ htt
    unfold itemAlloc
    simp [htt]
  · refine ⟨_, calculate_bill_split_ok items votes payerId hE hpr, ?_⟩
    intro uid hu hup
    dsimp only
    rw [lookupSum_buildTotals_ne (billPairs items votes) (allEaters votes)
        payerId uid (allEaters_nodup votes) hu hup,
      lookupSum_billPairs]

/-- Witness for C8 on a bill with one voted item and one tax item. -/
theorem C8_tax_pool_split_among_eaters_witness :
    allEaters [("1", ["A", "B"])] ≠ [] ∧
    (∀ it ∈ [Item.mk "1" 10 false, Item.mk "2" 3 true], 0 ≤ it.price) ∧
    ((∀ it ∈ [Item.mk "1" 10 false, Item.mk "2" 3 true],
        it.isTaxOrTip = true →
          itemAlloc [("1", ["A", "B"])] it = .ok []) ∧
    ∃ r, calculate_bill_split [Item.mk "1" 10 false, Item.mk "2" 3 true]
        [("1", ["A", "B"])] "A" = .ok r ∧
      ∀ uid ∈ allEaters [("1", ["A", "B"])], uid ≠ "A" →
        lookupSum r.totals uid
          = ([Item.mk "1" 10 false, Item.mk "2" 3 true].map
              (fun it => specItemShare [("1", ["A", "B"])] it uid)).sum
            + specTaxShare [Item.mk "1" 10 false, Item.mk "2" 3 true]
                [("1", ["A", "B"])] uid) := by
  have hE : allEaters [("1", ["A", "B"])] ≠ [] := by decide
  have hp : ∀ it ∈ [Item.mk "1" 10 false, Item.mk "2" 3 true],
      0 ≤ it.price := by
    intro it hit
    rw [List.mem_cons] at hit
    rcases hit with rfl | hit
    · norm_num
    · rw [List.mem_singleton] at hit
      subst hit
      norm_num
  exact ⟨hE, hp, C8_tax_pool_split_among_eaters _ _ "A" hE hp⟩

/-- C10: with a non-empty eater set, the key set of the primary result
is exactly the eater set together with the payer; a user whose only
votes are recorded against unknown or tax/tip item ids is still a key
and is charged exactly the pooled tax/tip share. -/
theorem C10_keys_eaters_payer (items : List Item) (votes : VoteMap)
    (payerId : String) (hE : allEaters votes ≠ [])
    (hpr : ∀ it ∈ items, 0 ≤ it.price) :
    ∃ r, calculate_bill_split items votes payerId = .ok r ∧
      (∀ u, u ∈ r.totals.map Prod.fst ↔ (u ∈ allEaters votes ∨ u = payerId)) ∧
      (∀ u ∈ allEaters votes, u ≠ payerId →
        (∀ it ∈ items, it.isTaxOrTip = false → u ∉ getVotes votes it.id) →
        lookupSum r.totals u = specTaxShare items votes u) := by
  refine ⟨_, calculate_bill_split_ok items votes payerId hE hpr, ?_, ?_⟩
  · intro u
    dsimp only
    rw [keys_buildTotals]
    by_cases hp : payerId ∈ allEaters votes
    · rw [if_pos hp]
      constructor
      · exact fun h => Or.inl h
      · rintro (h | rfl)
        · exact h
        · exact hp
    · rw [if_neg hp]
      simp
  · intro u hu hup hnv
    dsimp only
    rw [lookupSum_buildTotals_ne (billPairs items votes) (allEaters votes)
        payerId u (allEaters_nodup votes) hu hup,
      lookupSum_billPairs]
    have hz : (items.map (fun it => specItemShare votes it u)).sum = 0 := by
      apply List.sum_eq_zero
      intro x hx
      obtain ⟨it, hit, rfl⟩ := List.mem_map.mp hx
      by_cases ht : it.isTaxOrTip = true
      · unfold specItemShare
        rw [if_pos ht]
      · have hf : it.isTaxOrTip = false := by
          cases h : it.isTaxOrTip
          · rfl
          · exact absurd h ht
        exact specItemShare_eq_zero_of_not_voter votes it u (hnv it hit hf)
    rw [hz]
    ring

/-- Witness for C10: user B's only vote is on item id 9, which is not in
the items list. -/
theorem C10_keys_eaters_payer_witness :
    allEaters [("1", ["A"]), ("9", ["B"])] ≠ [] ∧
    (∀ it ∈ [Item.mk "1" 10 false, Item.mk "2" 3 true], 0 ≤ it.price) ∧
    (∃ r, calculate_bill_split [Item.mk "1" 10 false, Item.mk "2" 3 true]
        [("1", ["A"]), ("9", ["B"])] "A" = .ok r ∧
      (∀ u, u ∈ r.totals.map Prod.fst
        ↔ (u ∈ allEaters [("1", ["A"]), ("9", ["B"])] ∨ u = "A")) ∧
      (∀ u ∈ allEaters [("1", ["A"]), ("9", ["B"])], u ≠ "A" →
        (∀ it ∈ [Item.mk "1" 10 false, Item.mk "2" 3 true],
          it.isTaxOrTip = false →
            u ∉ getVotes [("1", ["A"]), ("9", ["B"])] it.id) →
        lookupSum r.totals u
          = specTaxShare [Item.mk "1" 10 false, Item.mk "2" 3 true]
              [("1", ["A"]), ("9", ["B"])] u)) := by
  have hE : allEaters [("1", ["A"]), ("9", ["B"])] ≠ [] := by decide
  have hp : ∀ it ∈ [Item.mk "1" 10 false, Item.mk "2" 3 true],
      0 ≤ it.price := by
    intro it hit
    rw [List.mem_cons] at hit
    rcases hit with rfl | hit
    · norm_num
    · rw [List.mem_singleton] at hit
      subst hit
      norm_num
  exact ⟨hE, hp, C10_keys_eaters_payer _ _ "A" hE hp⟩

/-- C9 amended: the older variant also respects votes per item — a
non-tax item's price is divided (exactly, without cent rounding) by the
size of that item's own voter list and credited only to those voters;
the full eater set is used only for the tax/tip share and for
membership.  Each non-payer eater's total is the half-up rounding of
those per-item shares plus `tax_pool / |eater set|`. -/
theorem C9_old_variant_item_shares (items : List Item) (votes : VoteMap)
    (payerId : String) (hE : allEaters votes ≠ []) :
    ∃ r, calculate_bill_split_old items votes payerId = .ok r ∧
      ∀ uid ∈ allEaters votes, uid ≠ payerId →
        lookupSum r.totals uid
          = q2up ((items.map (fun it => oldSpecShare votes it uid)).sum
              + taxPool items / ((allEaters votes).length : ℚ)) := by
  refine ⟨_, calculate_bill_split_old_ok items votes payerId hE, ?_⟩
  intro uid hu hup
  dsimp only
  rw [lookupSum_oldTotals_ne items votes payerId uid hu hup]
  unfold oldUserTotal
  rw [List.map_congr_left
    (fun it _ => oldItemShare_eq_oldSpecShare votes it uid)]

/-- Witness for the amended C9. -/
theorem C9_old_variant_item_shares_witness :
    allEaters [("1", ["A"]), ("2", ["B"])] ≠ [] ∧
    (∃ r, calculate_bill_split_old [Item.mk "1" 6 false]
        [("1", ["A"]), ("2", ["B"])] "C" = .ok r ∧
      ∀ uid ∈ allEaters [("1", ["A"]), ("2", ["B"])], uid ≠ "C" →
        lookupSum r.totals uid
          = q2up (([Item.mk "1" 6 false].map
              (fun it => oldSpecShare [("1", ["A"]), ("2", ["B"])] it uid)).sum
              + taxPool [Item.mk "1" 6 false]
                / ((allEaters [("1", ["A"]), ("2", ["B"])]).length : ℚ))) := by
  have hE : allEaters [("1", ["A"]), ("2", ["B"])] ≠ [] := by decide
  exact ⟨hE, C9_old_variant_item_shares [Item.mk "1" 6 false]
    [("1", ["A"]), ("2", ["B"])] "C" hE⟩

/-- C9 counterexample: items `[{id 1, price 6.00}]`, votes
`{1: [A], 2: [B]}`, payer C.  The eater set is `{A, B}`, so the claim
(every non-tax item divided equally among all eaters) predicts 3.00 for
both A and B; the code instead charges A the full 6.00 and B nothing. -/
theorem C9_counterexample :
    (∃ r, calculate_bill_split_old [Item.mk "1" 6 false]
        [("1", ["A"]), ("2", ["B"])] "C" = .ok r ∧
      lookupSum r.totals "A" = 6 ∧ lookupSum r.totals "B" = 0) ∧
    ¬ ((6 : ℚ) = 6 / 2 ∧ (0 : ℚ) = 6 / 2) := by
  have hE : allEaters [("1", ["A"]), ("2", ["B"])] ≠ [] := by decide
  refine ⟨⟨_, calculate_bill_split_old_ok [Item.mk "1" 6 false]
    [("1", ["A"]), ("2", ["B"])] "C" hE, ?_, ?_⟩, by norm_num⟩
  · dsimp only
    rw [lookupSum_oldTotals_ne _ _ _ "A" (by decide) (by decide)]
    have h1 : oldUserTotal [Item.mk "1" 6 false]
        [("1", ["A"]), ("2", ["B"])] "A" = 6 := by
      unfold oldUserTotal oldItemShare taxPool
      rw [show allEaters [("1", ["A"]), ("2", ["B"])] = ["A", "B"] by decide]
      simp only [List.map_cons, List.map_nil, List.sum_cons, List.sum_nil]
      rw [show getVotes [("1", ["A"]), ("2", ["B"])] "1" = ["A"] from rfl]
      simp
    rw [h1, show (6 : ℚ) = ((600 : ℤ) : ℚ)/100 by norm_num, q2up_int_div]
  · dsimp only
    rw [lookupSum_oldTotals_ne _ _ _ "B" (by decide) (by decide)]
    have h1 : oldUserTotal [Item.mk "1" 6 false]
        [("1", ["A"]), ("2", ["B"])] "B" = 0 := by
      unfold oldUserTotal oldItemShare taxPool
      rw [show allEaters [("1", ["A"]), ("2", ["B"])] = ["A", "B"] by decide]
      simp only [List.map_cons, List.map_nil, List.sum_cons, List.sum_nil]
      rw [show getVotes [("1", ["A"]), ("2", ["B"])] "1" = ["A"] from rfl]
      simp
    rw [h1, q2up_zero]
